import Mathlib

/-!
Verification development for `jobs_daily.py`, a daily job-search digest
pipeline (collect → normalize/deduplicate/filter → rank → render → mail).
The Python source is shallowly embedded below: strings are Lean `String`s
(character lists where convenient), the external search capability and the
process environment are explicit function parameters, and the SMTP sink is
modelled by the list of messages a run hands to it.
-/

namespace JobsDaily

/-! ### String helpers (Python `str.lower`, `str.strip`, `in`) -/

/-- ASCII lowercasing, embedding Python `str.lower()` / `re.IGNORECASE`
for the ASCII texts this program manipulates. -/
def lowerChar (c : Char) : Char :=
  if 'A' ≤ c && c ≤ 'Z' then Char.ofNat (c.toNat + 32) else c

def lowerL (l : List Char) : List Char := l.map lowerChar

def lowerStr (s : String) : String := ⟨lowerL s.data⟩

/-- ASCII whitespace, embedding Python `str.strip()`'s default set. -/
def isSpaceChar (c : Char) : Bool :=
  c = ' ' || c = '\t' || c = '\n' || c = '\r' || c = '\x0b' || c = '\x0c'

def trimL (l : List Char) : List Char :=
  ((l.dropWhile isSpaceChar).reverse.dropWhile isSpaceChar).reverse

/-- Embedding of Python `s.strip()`. -/
def strTrim (s : String) : String := ⟨trimL s.data⟩

/-- Substring containment: `containsSub needle hay` is Python `needle in hay`. -/
def containsSub (needle : List Char) : List Char → Bool
  | [] => needle.isEmpty
  | c :: rest => needle.isPrefixOf (c :: rest) || containsSub needle rest

def strContains (hay needle : String) : Bool := containsSub needle.data hay.data

/-! ### The two compiled patterns

The source compiles `re.compile(r'\\b(entry|junior|...)\\b', re.IGNORECASE)`.
Inside a *raw* string, `\\b` is the two characters backslash-backslash-b;
as a regular expression `\\` matches one literal backslash character and
`b` the letter b.  So a search succeeds exactly when the subject contains
the literal two-character text `\b`, then one alternative, then `\b` again
(letters compared case-insensitively). -/

def entryWords : List String :=
  ["entry", "junior", "werkstudent", "trainee", "associate", "graduate"]

/-- Search success of `ENTRY_LEVEL_PATTERN` (see the note above: the
pattern requires literal backslash-b delimiters around the word). -/
def entrySearch (s : String) : Bool :=
  entryWords.any (fun w => strContains (lowerStr s) ("\\b" ++ w ++ "\\b"))

def sRun (n : Nat) : String := ⟨List.replicate n 's'⟩

/-- The alternatives of `PREFERRED_TERMS` with the `s*` repetition
instantiated at run length `n`: `supply\\s*chain`, `procurement`,
`logistics?\\s*coordinat(or|ion)` (again `\\s` is a literal backslash
followed by zero or more letters s). -/
def preferredAlts (n : Nat) : List String :=
  ["supply\\" ++ sRun n ++ "chain",
   "procurement",
   "logistic\\" ++ sRun n ++ "coordinator",
   "logistic\\" ++ sRun n ++ "coordination",
   "logistics\\" ++ sRun n ++ "coordinator",
   "logistics\\" ++ sRun n ++ "coordination"]

/-- Search success of `PREFERRED_TERMS`.  A match of `s*` cannot repeat
more often than the subject is long, so trying every run length up to the
subject length is exhaustive. -/
def preferredSearch (s : String) : Bool :=
  let t := lowerStr s
  (List.range (t.data.length + 1)).any (fun n =>
    (preferredAlts n).any (fun a => strContains t ("\\b" ++ a ++ "\\b")))

/-! ### Data model -/

/-- One raw job record as returned by the search capability; `none` models
an absent field.  `related_links` holds each entry's `link` field. -/
structure RawListing where
  title : Option String := none
  company_name : Option String := none
  company : Option String := none
  via : Option String := none
  description : Option String := none
  related_links : Option (List (Option String)) := none
  share_link : Option String := none
  job_id : Option String := none
  location : Option String := none
  posted_at : Option String := none
  posted : Option String := none
  salary : Option String := none
deriving DecidableEq

/-- The canonical row carried through filter → rank → render. -/
structure Row where
  title : String
  company : String
  location : String
  source : String
  link : Option String
  posted : String
  salary : Option String
  query : String
deriving DecidableEq

/-- Python truthiness of an optional string: `None` and `""` are falsy. -/
def optTruthy : Option String → Bool
  | none => false
  | some s => !s.data.isEmpty

/-- Python `a or ""` for an optional string. -/
def orEmpty (a : Option String) : String :=
  if optTruthy a then a.getD "" else ""

/-- Python `a or b or ""` for optional strings. -/
def firstTruthy2 (a b : Option String) : String :=
  if optTruthy a then a.getD "" else orEmpty b

/-- Python `a or b` keeping the second operand as is. -/
def orOpt (a b : Option String) : Option String :=
  if optTruthy a then a else b

/-- Link selection: first related link if the list is present and
non-empty and its entry truthy, else `share_link or job_id`. -/
def linkOf (j : RawListing) : Option String :=
  let l0 : Option String :=
    match j.related_links with
    | some (x :: _) => x
    | _ => none
  if optTruthy l0 then l0 else orOpt j.share_link j.job_id

/-- The deduplication identity key `(title.strip(), company.strip(), link)`. -/
abbrev Key := String × String × Option String

def keyOfListing (j : RawListing) : Key :=
  (strTrim (orEmpty j.title), strTrim (firstTruthy2 j.company_name j.company), linkOf j)

/-- The relevance filter: `is_entry or strong_match`, i.e. the entry-level
pattern on title or description, or the preferred-terms pattern on the
title alone. -/
def retained (j : RawListing) : Bool :=
  (entrySearch (orEmpty j.title) || entrySearch (orEmpty j.description)) ||
    preferredSearch (orEmpty j.title)

/-- The canonical row built for a surviving listing. -/
def rowOf (q : String) (j : RawListing) : Row :=
  { title := strTrim (orEmpty j.title),
    company := strTrim (firstTruthy2 j.company_name j.company),
    location := strTrim (orEmpty j.location),
    source := orEmpty j.via,
    link := linkOf j,
    posted := firstTruthy2 j.posted_at j.posted,
    salary := j.salary,
    query := q }

/-- The body of the `for j in jobs` loop of `search_jobs`: dedup by seen
set (the key is recorded before the filter runs), then the relevance
filter, then row construction. -/
def normStep (q : String) (acc : List Row × List Key) (j : RawListing) :
    List Row × List Key :=
  if keyOfListing j ∈ acc.2 then acc
  else if !retained j then (acc.1, keyOfListing j :: acc.2)
  else (acc.1 ++ [rowOf q j], keyOfListing j :: acc.2)

/-- The Normalizer stage over a stream of (listing, originating keyword)
pairs, starting from empty row list and empty seen set. -/
def normalize (pairs : List (RawListing × String)) : List Row :=
  (pairs.foldl (fun acc p => normStep p.2 acc p.1) ([], [])).1

/-! ### Collector (`search_jobs`) -/

/-- The parameter dictionary built inside the request loop.  Every field
is a hard-coded literal; neither the current keyword, nor the page index,
nor the `serpapi_key` argument appears in it. -/
structure Params where
  q : String
  location : String
  api_key : String
deriving DecidableEq

def theParams : Params :=
  { q := "entry-level supply chain procurement logistics coordinator jobs Berlin",
    location := "Berlin, Germany",
    api_key := "3dd91fc1be83e18b600192c57984a7ac35d28ac93a0680682c2c2c54b40a0139" }

def KEYWORDS : List String :=
  ["entry level supply chain",
   "junior supply chain",
   "entry level procurement",
   "junior procurement",
   "logistics coordinator",
   "junior logistics",
   "graduate supply chain"]

def LOCATION : String := "Berlin, Germany"

def RESULTS_PER_QUERY : Nat := 20

def PAGES_PER_QUERY : Nat := 2

/-- The (keyword, page) iteration space, in keyword order then page order. -/
def queryPairs : List (String × Nat) :=
  (KEYWORDS.map (fun q => (List.range PAGES_PER_QUERY).map (fun p => (q, p)))).flatten

/-- The two nested loops of `search_jobs`.  `oracle` is the external search
capability: call index and request parameters to returned raw listings.
Returns the accumulated (rows, seen) state and the requests issued. -/
def searchJobsAux (oracle : Nat → Params → List RawListing) :
    List (String × Nat) → Nat → List Row × List Key →
    (List Row × List Key) × List Params
  | [], _, acc => (acc, [])
  | (q, _page) :: rest, idx, acc =>
    let ps := theParams
    let jobs := oracle idx ps
    let acc' := jobs.foldl (normStep q) acc
    let out := searchJobsAux oracle rest (idx + 1) acc'
    (out.1, ps :: out.2)

/-- `search_jobs(serpapi_key)`: the produced rows and the requests issued. -/
def searchJobs (oracle : Nat → Params → List RawListing)
    (serpapi_key : String) : List Row × List Params :=
  let out := searchJobsAux oracle queryPairs 0 ([], [])
  (out.1.1, out.2)

/-- Spec-side Collector output: the concatenation of the per-request
responses, each listing paired with its originating keyword, in keyword
order then page order then API-returned order. -/
def collectorPairsAux (oracle : Nat → Params → List RawListing) :
    List (String × Nat) → Nat → List (RawListing × String)
  | [], _ => []
  | (q, _) :: rest, idx =>
    ((oracle idx theParams).map (fun j => (j, q))) ++
      collectorPairsAux oracle rest (idx + 1)

def collectorPairs (oracle : Nat → Params → List RawListing) :
    List (RawListing × String) :=
  collectorPairsAux oracle queryPairs 0

/-! ### Ranking (`score`, `sorted`, truncation) -/

/-- The `score` closure of `main`: it accumulates the bonus points and
returns their negation, so that Python's ascending stable sort puts the
highest-scoring rows first. -/
def score (r : Row) : Int :=
  let s : Int := 0
  let s := if preferredSearch r.title then s + 2 else s
  let s := if entrySearch r.title then s + 1 else s
  let posted := lowerStr r.posted
  let s :=
    if strContains posted "just" then s + 3
    else if strContains posted "day" || strContains posted "hour" then s + 2
    else s
  Neg.neg s

/-- Python `sorted(rows, key=score)`: a stable sort, ascending in the key. -/
def rowsSorted (rows : List Row) : List Row :=
  rows.mergeSort (fun a b => decide (score a ≤ score b))

/-- `rows_sorted[:40]`. -/
def topRows (rows : List Row) : List Row := (rowsSorted rows).take 40

/-- The desirability of a row (the positive sum of bonuses), written from
the spec's wording: +2 domain relevance on the title, +1 entry-level on
the title, +3 recency contains "just", else +2 recency contains "day" or
"hour", else +0. -/
def specScore (r : Row) : Int :=
  (if preferredSearch r.title then 2 else 0) +
  (if entrySearch r.title then 1 else 0) +
  (if strContains (lowerStr r.posted) "just" then 3
   else if strContains (lowerStr r.posted) "day" ||
           strContains (lowerStr r.posted) "hour" then 2
   else 0)

/-- Spec-side ranking: stable sort descending by desirability, then
truncate to the digest size 40. -/
def specSorted (rows : List Row) : List Row :=
  rows.mergeSort (fun a b => decide (specScore b ≤ specScore a))

/-! ### HTML rendering (`to_html_table`) -/

def htmlHead : String :=
  "<table border=\"1\" cellpadding=\"6\" cellspacing=\"0\" style=\"border-collapse:collapse;font-family:Arial,sans-serif;font-size:14px;\">\n<tr><th>Title</th><th>Company</th><th>Location</th><th>Posted</th><th>Source</th><th>Link</th></tr>\n"

def linkHtml (r : Row) : String :=
  if optTruthy r.link then "<a href=\"" ++ r.link.getD "" ++ "\">View</a>" else ""

/-- One `<tr>` fragment; field values are interpolated verbatim, exactly
as the f-string in the source does (no HTML escaping). -/
def rowHtml (r : Row) : String :=
  "<tr>" ++ "<td>" ++ r.title ++ "</td>" ++ "<td>" ++ r.company ++ "</td>" ++
  "<td>" ++ r.location ++ "</td>" ++ "<td>" ++ r.posted ++ "</td>" ++
  "<td>" ++ r.source ++ "</td>" ++ "<td>" ++ linkHtml r ++ "</td>" ++ "</tr>"

/-- `to_html_table`.  The source joins the body rows with `"\\n"`, which in
Python is the two-character text backslash-n, not a newline; the Lean
literal below is the same two characters. -/
def toHtmlTable (rows : List Row) : String :=
  htmlHead ++ String.intercalate "\\n" (rows.map rowHtml) ++ "</table>"

/-! ### CSV writing (`csv.DictWriter`, excel dialect)

`csv.DictWriter` with the default dialect quotes a field exactly when it
contains the delimiter, the quote character, or a line-terminator
character, doubling embedded quotes, and terminates each record with CRLF;
a `None` value is written as the empty string. -/

def quoteChar : Char := Char.ofNat 34

def needsQuote (f : List Char) : Bool :=
  f.any (fun c => c = ',' || c = quoteChar || c = '\r' || c = '\n')

def escQ : List Char → List Char
  | [] => []
  | c :: rest =>
    if c = quoteChar then quoteChar :: quoteChar :: escQ rest
    else c :: escQ rest

def encodeField (f : List Char) : List Char :=
  if needsQuote f then quoteChar :: (escQ f ++ [quoteChar]) else f

def sepJoin : List (List Char) → List Char
  | [] => []
  | [f] => f
  | f :: g :: rest => f ++ ',' :: sepJoin (g :: rest)

def encodeRecord (fs : List (List Char)) : List Char :=
  sepJoin (fs.map encodeField)

def crlf : List Char := ['\r', '\n']

def headerFields : List (List Char) :=
  ["title".data, "company".data, "location".data, "posted".data,
   "source".data, "link".data, "query".data, "salary".data]

/-- How `DictWriter` renders an optional value: `None` becomes `""`. -/
def optStr : Option String → String
  | none => ""
  | some s => s

def rowFields (r : Row) : List (List Char) :=
  [r.title.data, r.company.data, r.location.data, r.posted.data,
   r.source.data, (optStr r.link).data, r.query.data, (optStr r.salary).data]

/-- The CSV file contents: header record then one record per row, each
terminated by CRLF. -/
def writeCSV (rows : List Row) : List Char :=
  encodeRecord headerFields ++ crlf ++
    rows.foldr (fun r acc => encodeRecord (rowFields r) ++ crlf ++ acc) []

/-! ### CSV parsing (spec side: a standard CSV reader) -/

/-- Parse the remainder of a quoted field (the opening quote already
consumed): a doubled quote is an embedded quote, a single quote closes the
field.  Returns the field content and the unconsumed rest. -/
def parseQuoted : List Char → List Char × List Char
  | [] => ([], [])
  | c :: rest =>
    if c = quoteChar then
      match rest with
      | [] => ([], [])
      | c2 :: rest2 =>
        if c2 = quoteChar then
          let out := parseQuoted rest2
          (quoteChar :: out.1, out.2)
        else ([], c2 :: rest2)
    else
      let out := parseQuoted rest
      (c :: out.1, out.2)

/-- Parse one field; an initial quote starts a quoted field, otherwise
characters are read up to a comma or line terminator.  Returns the field
and the rest beginning at the separator (or empty). -/
def parseField : List Char → List Char × List Char
  | [] => ([], [])
  | c :: rest =>
    if c = quoteChar then parseQuoted rest
    else if c = ',' || c = '\r' || c = '\n' then ([], c :: rest)
    else
      let out := parseField rest
      (c :: out.1, out.2)

/-- Parse the comma-separated fields of one record up to its CRLF (or LF,
or end of input); the fuel bounds the number of fields. -/
def parseFieldsF : Nat → List Char → List (List Char) × List Char
  | 0, input => ([], input)
  | fuel + 1, input =>
    let out := parseField input
    match out.2 with
    | [] => ([out.1], [])
    | c :: rest2 =>
      if c = ',' then
        let next := parseFieldsF fuel rest2
        (out.1 :: next.1, next.2)
      else if c = '\r' then
        match rest2 with
        | [] => ([out.1], [])
        | c2 :: rest3 => if c2 = '\n' then ([out.1], rest3) else ([out.1], [])
      else if c = '\n' then ([out.1], rest2)
      else ([out.1], [])

/-- Parse all records; the fuel bounds the number of records. -/
def parseRecsF : Nat → List Char → List (List (List Char))
  | 0, _ => []
  | _ + 1, [] => []
  | fuel + 1, c :: cs =>
    let out := parseFieldsF ((c :: cs).length + 1) (c :: cs)
    out.1 :: parseRecsF fuel out.2

/-- Parse a whole CSV text into its records of fields. -/
def parseCSV (s : List Char) : List (List (List Char)) :=
  parseRecsF (s.length + 1) s

/-! ### Mail (`send_email`) and `main` -/

/-- The one message a run hands to the SMTP sink: subject, HTML body and
the CSV attachment bytes. -/
structure EmailMessage where
  subject : String
  html : String
  csvAttachment : List Char
deriving DecidableEq

def introHtml (today : String) : String :=
  "<p>Daily digest for entry-level Supply Chain / Procurement / Logistics Coordinator roles in Berlin (" ++
    today ++ ").</p>"

/-- `send_email(rows, ...)` as the message it constructs and sends. -/
def sendEmail (rows : List Row) (today : String) : EmailMessage :=
  { subject := "Berlin Entry-Level Supply Chain Jobs — " ++ today,
    html := introHtml today ++
      (if rows.isEmpty then "<p>No matching roles found today.</p>"
       else toHtmlTable rows),
    csvAttachment := writeCSV rows }

/-- The messages one `send_email` call delivers to the SMTP sink: the body
of `send_email` invokes `server.send_message(msg)` exactly once. -/
def smtpMessages (rows : List Row) (today : String) : List EmailMessage :=
  [sendEmail rows today]

/-- Outcome of one run of `main`. -/
inductive MainOutcome where
  | exitError (message : String) (code : Nat)
  | nameErrorCrash
  | sent (messages : List EmailMessage) (count : Nat)
deriving DecidableEq

/-- `main()`.  `env` is the process environment (`None` = unset).  The
branch for missing SMTP settings evaluates `print(key, ...)` where no
variable `key` is in scope, so the run dies with an uncaught `NameError`
(modelled by `nameErrorCrash`) before the intended error message and
`sys.exit(1)` are reached, and before any network call. -/
def main (env : String → Option String)
    (oracle : Nat → Params → List RawListing) (today : String) : MainOutcome :=
  let serpapi_key := env "SERPAPI_KEY"
  if !optTruthy serpapi_key then
    .exitError "ERROR: SERPAPI_KEY not set in environment (.env)." 1
  else
    let sender := env "MAIL_FROM"
    let recipient := env "MAIL_TO"
    let smtp_host := (env "SMTP_HOST").getD "smtp.gmail.com"
    let smtp_port := (env "SMTP_PORT").getD "587"
    let username := orOpt (env "SMTP_USERNAME") sender
    let password := env "SMTP_PASSWORD"
    if !(optTruthy sender && optTruthy recipient && !smtp_host.data.isEmpty &&
         !smtp_port.data.isEmpty && optTruthy username && optTruthy password) then
      .nameErrorCrash
    else
      let rows := (searchJobs oracle (serpapi_key.getD "")).1
      let top := topRows rows
      .sent (smtpMessages top today) top.length

/-! ## Shared helper lemmas -/

theorem score_eq_neg_specScore (r : Row) : score r = -specScore r := by
  simp only [score, specScore]
  split_ifs <;> omega

theorem containsSub_append_right (n a b : List Char)
    (h : containsSub n b = true) : containsSub n (a ++ b) = true := by
  induction a with
  | nil => simpa using h
  | cons c rest ih => simp [containsSub, ih]

theorem searchJobsAux_requests (oracle : Nat → Params → List RawListing)
    (l : List (String × Nat)) (idx : Nat) (acc : List Row × List Key) :
    (searchJobsAux oracle l idx acc).2 = l.map (fun _ => theParams) := by
  induction l generalizing idx acc with
  | nil => rfl
  | cons hd rest ih =>
    obtain ⟨q, p⟩ := hd
    simp [searchJobsAux, ih]

theorem searchJobsAux_rows (oracle : Nat → Params → List RawListing)
    (l : List (String × Nat)) (idx : Nat) (acc : List Row × List Key) :
    (searchJobsAux oracle l idx acc).1 =
      (collectorPairsAux oracle l idx).foldl (fun a p => normStep p.2 a p.1) acc := by
  induction l generalizing idx acc with
  | nil => rfl
  | cons hd rest ih =>
    obtain ⟨q, p⟩ := hd
    simp [searchJobsAux, collectorPairsAux, ih, List.foldl_append, List.foldl_map]

/-! ## Claim theorems -/

/-- The spec's scenario listing: title "Junior Supply Chain Analyst",
company "Acme", link "http://x/1". -/
def scenarioListing : RawListing :=
  { title := some "Junior Supply Chain Analyst", company_name := some "Acme",
    share_link := some "http://x/1" }

/-- C1: the claim says a listing is retained iff the entry-level pattern
(whole-word) matches title or description or the domain pattern
(whole-word) matches the title, and in particular that a listing titled
"Junior Supply Chain Analyst" is retained.  The code's patterns are
compiled from raw strings containing `\\b`, which matches a literal
backslash followed by `b`, not a word boundary, so neither pattern matches
this title and the listing is dropped: the code contradicts the spec's
intent. -/
theorem C1_scenario_listing_dropped :
    retained scenarioListing = false ∧
    normalize [(scenarioListing, "junior supply chain")] = [] ∧
    entrySearch "Junior Supply Chain Analyst" = false ∧
    preferredSearch "Junior Supply Chain Analyst" = false := by decide

/-- C3: the score key returned by `score` is the negated sum of the three
independent bonuses (+2 domain pattern on title, +1 entry pattern on
title, +3 recency containing "just" else +2 for "day"/"hour" else 0), and
a row posted "Just posted" is worth exactly 3 more desirability points
than an otherwise identical row posted "2 weeks ago". -/
theorem C3_score_decomposition (r : Row) :
    score r = -specScore r ∧
    specScore { r with posted := "Just posted" } =
      specScore { r with posted := "2 weeks ago" } + 3 := by
  refine ⟨score_eq_neg_specScore r, ?_⟩
  have h1 : strContains (lowerStr "Just posted") "just" = true := by decide
  have h2 : strContains (lowerStr "2 weeks ago") "just" = false := by decide
  have h3 : strContains (lowerStr "2 weeks ago") "day" = false := by decide
  have h4 : strContains (lowerStr "2 weeks ago") "hour" = false := by decide
  by_cases hp : preferredSearch r.title <;> by_cases he : entrySearch r.title <;>
    simp [specScore, h1, h2, h3, h4, hp, he]

/-- A kept row whose title and company contain HTML metacharacters. -/
def c6Row : Row :=
  { title := "<b>Junior</b>", company := "A&B", location := "", source := "",
    link := none, posted := "", salary := none, query := "q" }

set_option maxRecDepth 8192 in
/-- C6: the claim requires every field value to be HTML-escaped in the
rendered fragment.  The renderer interpolates the fields verbatim: the raw
`<b>` tag and the raw `&` appear in the output and no escaped form does. -/
theorem C6_html_fields_not_escaped :
    strContains (toHtmlTable [c6Row]) "<td><b>Junior</b></td>" = true ∧
    strContains (toHtmlTable [c6Row]) "<td>A&B</td>" = true ∧
    strContains (toHtmlTable [c6Row]) "&lt;" = false ∧
    strContains (toHtmlTable [c6Row]) "&amp;" = false := by decide

/-- C7: every run hands exactly one message to the mail sink, and with
zero kept rows the HTML body contains "No matching roles found today."
and the attached CSV is the header record alone. -/
theorem C7_exactly_one_message (rows : List Row) (today : String) :
    (smtpMessages rows today).length = 1 ∧
    (rows = [] →
      strContains (sendEmail rows today).html "No matching roles found today." = true ∧
      (sendEmail rows today).csvAttachment = encodeRecord headerFields ++ crlf) := by
  refine ⟨rfl, ?_⟩
  rintro rfl
  constructor
  · have hh : (sendEmail ([] : List Row) today).html =
        introHtml today ++ "<p>No matching roles found today.</p>" := by
      simp [sendEmail]
    rw [hh]
    show containsSub _ _ = true
    rw [String.data_append]
    exact containsSub_append_right _ _ _ (by decide)
  · simp [sendEmail, writeCSV]

/-- Witness for C7 at the concrete empty run of 2026-10-12. -/
theorem C7_exactly_one_message_witness :
    strContains (sendEmail [] "2026-10-12").html "No matching roles found today." = true ∧
    (sendEmail [] "2026-10-12").csvAttachment = encodeRecord headerFields ++ crlf :=
  (C7_exactly_one_message [] "2026-10-12").2 rfl

/-- Environment with the API key and mail addresses set but no SMTP
password. -/
def envMissingSmtp : String → Option String := fun k =>
  if k = "SERPAPI_KEY" then some "dummy-key"
  else if k = "MAIL_FROM" then some "me@example.com"
  else if k = "MAIL_TO" then some "you@example.com"
  else none

/-- Environment with nothing set. -/
def envEmpty : String → Option String := fun _ => none

/-- C8: with a missing SMTP setting the claim promises an abort with a
clear message and non-zero exit before any network call.  The run does
abort before any network call (the outcome does not depend on the search
oracle), but it dies with an uncaught `NameError` from the undefined
variable `key` in the debug print, so the intended clear error message and
`sys.exit(1)` are never reached.  With the API key missing the clear
message path does work. -/
theorem C8_missing_config_paths (oracle : Nat → Params → List RawListing)
    (today : String) :
    main envMissingSmtp oracle today = MainOutcome.nameErrorCrash ∧
    main envEmpty oracle today =
      MainOutcome.exitError "ERROR: SERPAPI_KEY not set in environment (.env)." 1 := by
  constructor <;> rfl

/-- C2 counterexample: the claim says each request is keyed by the current
keyword as query text and by the supplied credential.  The very first
request (keyword "entry level supply chain", page 0, credential "my-key")
instead carries the hard-coded parameters, whose query text is not the
keyword and whose API key is not the supplied credential. -/
theorem C2_request_not_keyed_by_keyword :
    (searchJobs (fun _ _ => []) "my-key").2.head? = some theParams ∧
    theParams.q ≠ "entry level supply chain" ∧
    theParams.api_key ≠ "my-key" :=
  ⟨rfl, by decide, by decide⟩

/-- C2 amended: one request is issued per (keyword, page) pair, but every
request carries the same hard-coded query text, location and embedded API
key, independent of the keyword, the page and the supplied credential; the
produced rows are the Normalizer fold over the concatenation of the
per-request responses paired with their originating keyword, in keyword
order then page order then API-returned order. -/
theorem C2_fixed_request_per_pair (oracle : Nat → Params → List RawListing)
    (serpapi_key : String) :
    (searchJobs oracle serpapi_key).2 =
      List.replicate (KEYWORDS.length * PAGES_PER_QUERY) theParams ∧
    (searchJobs oracle serpapi_key).1 =
      ((collectorPairs oracle).foldl (fun a p => normStep p.2 a p.1) ([], [])).1 := by
  constructor
  · show (searchJobsAux oracle queryPairs 0 ([], [])).2 = _
    rw [searchJobsAux_requests]
    rfl
  · have h := searchJobsAux_rows oracle queryPairs 0 ([], [])
    simp only [searchJobs, collectorPairs, h]

/-- C10: the requests issued by `search_jobs` are independent of its
`serpapi_key` argument (the whole result is: the argument is never read),
and every request equals the one hard-coded parameter dictionary. -/
theorem C10_request_independent_of_credential
    (oracle : Nat → Params → List RawListing) (k1 k2 : String) :
    searchJobs oracle k1 = searchJobs oracle k2 ∧
    (searchJobs oracle k1).2 =
      List.replicate (KEYWORDS.length * PAGES_PER_QUERY) theParams := by
  constructor
  · rfl
  · show (searchJobsAux oracle queryPairs 0 ([], [])).2 = _
    rw [searchJobsAux_requests]
    rfl

/-! ## Deduplication lemmas (for the normalizer fold) -/

/-- The identity key of a produced canonical row. -/
def rowKey (r : Row) : Key := (r.title, r.company, r.link)

theorem rowKey_rowOf (q : String) (j : RawListing) :
    rowKey (rowOf q j) = keyOfListing j := rfl

theorem normStep_seen_mono {acc : List Row × List Key} {k : Key}
    (q : String) (j : RawListing) (h : k ∈ acc.2) : k ∈ (normStep q acc j).2 := by
  unfold normStep
  split_ifs <;> simp [h]

theorem normStep_key_mem (q : String) (acc : List Row × List Key) (j : RawListing) :
    keyOfListing j ∈ (normStep q acc j).2 := by
  unfold normStep
  split_ifs with h1 h2
  · exact h1
  · simp
  · simp

theorem normStep_of_mem {q : String} {acc : List Row × List Key} {j : RawListing}
    (h : keyOfListing j ∈ acc.2) : normStep q acc j = acc := by
  unfold normStep
  rw [if_pos h]

/-- Invariant carried by the fold: every produced row's key is recorded in
the seen set, and produced keys are pairwise distinct. -/
def accInv (acc : List Row × List Key) : Prop :=
  (∀ r ∈ acc.1, rowKey r ∈ acc.2) ∧
    acc.1.Pairwise (fun a b => rowKey a ≠ rowKey b)

theorem normStep_inv {acc : List Row × List Key} (q : String) (j : RawListing)
    (h : accInv acc) : accInv (normStep q acc j) := by
  obtain ⟨hmem, hpw⟩ := h
  unfold normStep
  split_ifs with h1 h2
  · exact ⟨hmem, hpw⟩
  · exact ⟨fun r hr => List.mem_cons_of_mem _ (hmem r hr), hpw⟩
  · constructor
    · intro r hr
      rcases List.mem_append.1 hr with hr | hr
      · exact List.mem_cons_of_mem _ (hmem r hr)
      · simp only [List.mem_singleton] at hr
        subst hr
        simp [rowKey_rowOf]
    · rw [List.pairwise_append]
      refine ⟨hpw, by simp, ?_⟩
      intro a ha b hb
      simp only [List.mem_singleton] at hb
      subst hb
      intro he
      rw [rowKey_rowOf] at he
      exact h1 (he ▸ hmem a ha)

theorem normFold_inv (l : List (RawListing × String)) {acc : List Row × List Key}
    (h : accInv acc) :
    accInv (l.foldl (fun a p => normStep p.2 a p.1) acc) := by
  induction l generalizing acc with
  | nil => exact h
  | cons p rest ih => exact ih (normStep_inv _ _ h)

theorem normFold_seen_mono (l : List (RawListing × String))
    {acc : List Row × List Key} {k : Key} (h : k ∈ acc.2) :
    k ∈ (l.foldl (fun a p => normStep p.2 a p.1) acc).2 := by
  induction l generalizing acc with
  | nil => exact h
  | cons p rest ih => exact ih (normStep_seen_mono _ _ h)

theorem normFold_seen (l : List (RawListing × String)) (acc : List Row × List Key) :
    ∀ p ∈ l, keyOfListing p.1 ∈ (l.foldl (fun a p => normStep p.2 a p.1) acc).2 := by
  induction l generalizing acc with
  | nil => simp
  | cons hd rest ih =>
    intro p hp
    rcases List.mem_cons.1 hp with hp | hp
    · subst hp
      exact normFold_seen_mono rest (normStep_key_mem _ _ _)
    · exact ih _ p hp

theorem normFold_stable (l : List (RawListing × String)) {acc : List Row × List Key}
    (h : ∀ p ∈ l, keyOfListing p.1 ∈ acc.2) :
    l.foldl (fun a p => normStep p.2 a p.1) acc = acc := by
  induction l generalizing acc with
  | nil => rfl
  | cons hd rest ih =>
    rw [List.foldl_cons, normStep_of_mem (h hd (by simp))]
    exact ih fun p hp => h p (List.mem_cons_of_mem _ hp)

/-- C4: within one run the identity keys of the produced canonical rows
are pairwise distinct; processing the same stream twice produces the same
rows as processing it once; and of two listings with the same identity key
only the first can ever produce a row. -/
theorem C4_dedup_unique_and_idempotent (pairs : List (RawListing × String))
    (j : RawListing) (q q' : String) :
    (normalize pairs).Pairwise (fun a b => rowKey a ≠ rowKey b) ∧
    normalize (pairs ++ pairs) = normalize pairs ∧
    normalize (pairs ++ [(j, q), (j, q')]) = normalize (pairs ++ [(j, q)]) := by
  refine ⟨?_, ?_, ?_⟩
  · exact (normFold_inv pairs ⟨by simp, by simp⟩).2
  · unfold normalize
    rw [List.foldl_append, normFold_stable pairs (normFold_seen pairs _)]
  · unfold normalize
    rw [List.foldl_append, List.foldl_append]
    simp only [List.foldl_cons, List.foldl_nil]
    rw [normStep_of_mem (normStep_key_mem _ _ _)]

/-! ## Ranking lemmas -/

theorem rowsSorted_eq_specSorted (rows : List Row) :
    rowsSorted rows = specSorted rows := by
  unfold rowsSorted specSorted
  congr 1
  funext a b
  rw [decide_eq_decide, score_eq_neg_specScore, score_eq_neg_specScore]
  exact neg_le_neg_iff

theorem specLe_trans (a b c : Row) :
    decide (specScore b ≤ specScore a) → decide (specScore c ≤ specScore b) →
    decide (specScore c ≤ specScore a) := by
  simp only [decide_eq_true_eq]
  intro h1 h2
  exact le_trans h2 h1

theorem specLe_total (a b : Row) :
    decide (specScore b ≤ specScore a) || decide (specScore a ≤ specScore b) := by
  simp only [Bool.or_eq_true, decide_eq_true_eq]
  exact le_total _ _

/-- C5: the ranked output equals the stable descending-by-score sort of the
filtered rows truncated to the first 40: the spec-side sorted sequence is a
permutation of the input, is sorted descending by score, keeps tied rows in
their input order, and the output is its 40-prefix, of length
min 40 (number of rows). -/
theorem C5_rank_sorted_stable_truncated (rows : List Row) :
    topRows rows = (specSorted rows).take 40 ∧
    (specSorted rows).Perm rows ∧
    (specSorted rows).Pairwise (fun a b => specScore b ≤ specScore a) ∧
    (∀ a b : Row, List.Sublist [a, b] rows → specScore a = specScore b →
      List.Sublist [a, b] (specSorted rows)) ∧
    (topRows rows).length = min 40 rows.length := by
  refine ⟨?_, ?_, ?_, ?_, ?_⟩
  · unfold topRows
    rw [rowsSorted_eq_specSorted]
  · exact List.mergeSort_perm rows _
  · exact (List.sorted_mergeSort specLe_trans specLe_total rows).imp
      (fun h => of_decide_eq_true h)
  · intro a b hsub heq
    refine List.sublist_mergeSort specLe_trans specLe_total ?_ hsub
    simp only [List.pairwise_cons, List.mem_singleton, forall_eq]
    exact ⟨decide_eq_true (le_of_eq heq.symm), by simp, List.Pairwise.nil⟩
  · have hl : (rowsSorted rows).length = rows.length :=
      (List.mergeSort_perm rows _).length_eq
    simp [topRows, List.length_take, hl]

/-- Two rows with equal score, for the C5 witness. -/
def rowA : Row :=
  { title := "A", company := "", location := "", source := "",
    link := none, posted := "", salary := none, query := "" }

/-- Second row for the C5 witness. -/
def rowB : Row :=
  { title := "B", company := "", location := "", source := "",
    link := none, posted := "", salary := none, query := "" }

/-- Witness for C5: the tie-stability clause at a concrete two-row input. -/
theorem C5_rank_sorted_stable_truncated_witness :
    List.Sublist [rowA, rowB] (specSorted [rowA, rowB]) :=
  (C5_rank_sorted_stable_truncated [rowA, rowB]).2.2.2.1 rowA rowB
    (List.Sublist.refl _) (by decide)

/-! ## CSV round-trip lemmas -/

/-- The continuation after an encoded field starts at a separator (comma
or carriage return) or at the end of input. -/
def sepStart : List Char → Prop
  | [] => True
  | c :: _ => c = ',' ∨ c = '\r'

theorem needsQuote_false_iff (f : List Char) :
    needsQuote f = false ↔
      ∀ x ∈ f, ¬x = ',' ∧ ¬x = quoteChar ∧ ¬x = '\r' ∧ ¬x = '\n' := by
  simp [needsQuote, List.any_eq_false, Bool.or_eq_true, decide_eq_true_eq,
    not_or, and_assoc]

theorem parseQuoted_escQ (f : List Char) {rest : List Char} (h : sepStart rest) :
    parseQuoted (escQ f ++ (quoteChar :: rest)) = (f, rest) := by
  induction f with
  | nil =>
    simp only [escQ, List.nil_append]
    cases rest with
    | nil => simp [parseQuoted]
    | cons c2 r2 =>
      simp only [sepStart] at h
      have hc2 : ¬c2 = quoteChar := by
        rcases h with h | h <;> subst h <;> decide
      simp [parseQuoted, hc2]
  | cons c f' ih =>
    by_cases hc : c = quoteChar
    · subst hc
      simp only [escQ, if_pos rfl, List.cons_append]
      simp [parseQuoted, ih]
    · simp only [escQ, if_neg hc, List.cons_append]
      rw [parseQuoted.eq_def]
      simp [hc, ih]

theorem parseField_plain (f : List Char) {rest : List Char}
    (hf : needsQuote f = false) (h : sepStart rest) :
    parseField (f ++ rest) = (f, rest) := by
  induction f with
  | nil =>
    simp only [List.nil_append]
    cases rest with
    | nil => simp [parseField]
    | cons c2 r2 =>
      simp only [sepStart] at h
      simp only [parseField]
      rcases h with h | h <;> subst h
      · rw [if_neg (by decide), if_pos (by decide)]
      · rw [if_neg (by decide), if_pos (by decide)]
  | cons c f' ih =>
    have hc := (needsQuote_false_iff _).1 hf c (by simp)
    have hf' : needsQuote f' = false := by
      rw [needsQuote_false_iff]
      intro x hx
      exact (needsQuote_false_iff _).1 hf x (by simp [hx])
    simp only [List.cons_append, parseField]
    rw [if_neg hc.2.1, if_neg (by simp [hc.1, hc.2.2.1, hc.2.2.2])]
    simp [ih hf']

theorem parseField_encodeField (f : List Char) {rest : List Char} (h : sepStart rest) :
    parseField (encodeField f ++ rest) = (f, rest) := by
  unfold encodeField
  by_cases hq : needsQuote f
  · rw [if_pos hq]
    have hsh : (quoteChar :: (escQ f ++ [quoteChar])) ++ rest =
        quoteChar :: (escQ f ++ (quoteChar :: rest)) := by simp
    rw [hsh]
    simp only [parseField, if_pos rfl]
    exact parseQuoted_escQ f h
  · rw [if_neg hq]
    exact parseField_plain f (by simpa using hq) h

theorem parseFieldsF_encodeRecord (fs : List (List Char)) (fuel : Nat)
    (rest : List Char) (hne : fs ≠ []) (hfuel : fs.length ≤ fuel) :
    parseFieldsF fuel (encodeRecord fs ++ ('\r' :: '\n' :: rest)) = (fs, rest) := by
  induction fs generalizing fuel with
  | nil => exact absurd rfl hne
  | cons f fs' ih =>
    obtain ⟨k, rfl⟩ : ∃ k, fuel = k + 1 := by
      cases fuel with
      | zero => simp at hfuel
      | succ k => exact ⟨k, rfl⟩
    cases fs' with
    | nil =>
      have henc : encodeRecord [f] = encodeField f := by simp [encodeRecord, sepJoin]
      rw [henc]
      simp only [parseFieldsF]
      rw [parseField_encodeField f (by simp [sepStart])]
      simp
    | cons g fs'' =>
      have henc : (encodeRecord (f :: g :: fs'')) ++ ('\r' :: '\n' :: rest) =
          encodeField f ++ (',' :: (encodeRecord (g :: fs'') ++ ('\r' :: '\n' :: rest))) := by
        simp [encodeRecord, sepJoin]
      rw [henc]
      simp only [parseFieldsF]
      rw [parseField_encodeField f (by simp [sepStart])]
      have hrec : parseFieldsF k (encodeRecord (g :: fs'') ++ ('\r' :: '\n' :: rest)) =
          (g :: fs'', rest) := by
        refine ih k (by simp) ?_
        simp only [List.length_cons] at hfuel ⊢
        omega
      simp [hrec]

/-- The writer output as the concatenation of encoded records. -/
def recsText (recs : List (List (List Char))) : List Char :=
  recs.foldr (fun fs acc => encodeRecord fs ++ crlf ++ acc) []

theorem writeCSV_eq_recsText (rows : List Row) :
    writeCSV rows = recsText (headerFields :: rows.map rowFields) := by
  simp [writeCSV, recsText, List.foldr_map]

theorem sepJoin_length (parts : List (List Char)) :
    parts.length ≤ (sepJoin parts).length + 1 := by
  induction parts with
  | nil => simp
  | cons f rest ih =>
    cases rest with
    | nil => simp [sepJoin]
    | cons g r2 =>
      simp only [sepJoin, List.length_cons, List.length_append] at ih ⊢
      omega

theorem recsText_length (recs : List (List (List Char))) :
    recs.length ≤ (recsText recs).length := by
  induction recs with
  | nil => simp [recsText]
  | cons fs recs' ih =>
    simp only [recsText, List.foldr_cons, List.length_append, crlf] at ih ⊢
    simp at ih ⊢
    omega

theorem parseRecsF_cons (k : Nat) (input : List Char) (h : input ≠ []) :
    parseRecsF (k + 1) input =
      (parseFieldsF (input.length + 1) input).1 ::
        parseRecsF k (parseFieldsF (input.length + 1) input).2 := by
  cases input with
  | nil => exact absurd rfl h
  | cons c cs => rfl

theorem parseRecsF_recsText (recs : List (List (List Char))) (fuel : Nat)
    (hne : ∀ fs ∈ recs, fs ≠ []) (hfuel : recs.length ≤ fuel) :
    parseRecsF fuel (recsText recs) = recs := by
  induction recs generalizing fuel with
  | nil =>
    cases fuel <;> simp [recsText, parseRecsF]
  | cons fs recs' ih =>
    obtain ⟨k, rfl⟩ : ∃ k, fuel = k + 1 := by
      cases fuel with
      | zero => simp at hfuel
      | succ k => exact ⟨k, rfl⟩
    have hshape : recsText (fs :: recs') =
        encodeRecord fs ++ ('\r' :: '\n' :: recsText recs') := by
      simp [recsText, crlf]
    have hnonempty : recsText (fs :: recs') ≠ [] := by
      rw [hshape]
      simp
    rw [parseRecsF_cons k _ hnonempty]
    have hflen : fs.length ≤
        (encodeRecord fs ++ ('\r' :: '\n' :: recsText recs')).length + 1 := by
      have h1 := sepJoin_length (fs.map encodeField)
      simp only [encodeRecord, List.length_map, List.length_append,
        List.length_cons] at h1 ⊢
      omega
    have hfld : parseFieldsF ((recsText (fs :: recs')).length + 1)
        (recsText (fs :: recs')) = (fs, recsText recs') := by
      rw [hshape]
      exact parseFieldsF_encodeRecord fs _ _ (hne fs (by simp)) hflen
    rw [hfld]
    exact congrArg (fs :: ·)
      (ih k (fun x hx => hne x (by simp [hx])) (by simp only [List.length_cons] at hfuel; omega))

/-- C9: the produced CSV consists of the exact claimed header record
followed by one record per kept row in kept order, and a standard CSV
parse of the file returns exactly those field values (absent optional
fields are rendered, and read back, as the empty string, as the CSV
writer does for `None`). -/
theorem C9_csv_round_trip (rows : List Row) :
    parseCSV (writeCSV rows) = headerFields :: rows.map rowFields ∧
    writeCSV [] = "title,company,location,posted,source,link,query,salary".data ++ crlf := by
  constructor
  · unfold parseCSV
    rw [writeCSV_eq_recsText]
    apply parseRecsF_recsText
    · intro fs hfs
      rcases List.mem_cons.1 hfs with h | h
      · subst h
        simp [headerFields]
      · obtain ⟨r, _, rfl⟩ := List.mem_map.1 h
        simp [rowFields]
    · have h1 := recsText_length (headerFields :: rows.map rowFields)
      omega
  · decide

end JobsDaily
